import Mathlib

/-!
Verification of the date arithmetic, file-creation, YAML front-matter and
error-handling behaviour of the second-brain automation scripts.

The Python scripts are embedded shallowly:

* calendar dates are a `Date` structure (proleptic Gregorian calendar, as
  used by Python's `datetime.date`); `datetime + timedelta(days=n)` is
  `addDays`, day-by-day iteration of the successor function `nextDay`;
* text is represented as `List Char`; lines produced by Python's
  `str.split('\n')` / `str.splitlines()` are modelled by `splitNl` /
  `splitlines` (the vault files are LF-separated, which is the only
  terminator these scripts produce);
* Dropbox folder listings are modelled as the list of pages the API would
  return (`files_list_folder` gives the head page, each
  `files_list_folder_continue` the next one);
* a Python function that raises instead of returning is modelled with
  `Option`, `none` standing for the raised exception.
-/

namespace SecondBrain

/-! ## Calendar model (Python `datetime.date` / `datetime.datetime`) -/

/-- A calendar date, as stored by Python's `datetime.date`. -/
structure Date where
  year : Nat
  month : Nat
  day : Nat
deriving DecidableEq, Repr

/-- Python's leap-year rule (`calendar.isleap`):
`year % 4 == 0 and (year % 100 != 0 or year % 400 == 0)`. -/
def isLeap (y : Nat) : Bool :=
  decide (y % 4 = 0 ∧ (y % 100 ≠ 0 ∨ y % 400 = 0))

/-- Number of days in a month of a given year (Python `calendar.monthrange`). -/
def daysInMonth (y m : Nat) : Nat :=
  if m = 2 then (if isLeap y then 29 else 28)
  else if m = 4 ∨ m = 6 ∨ m = 9 ∨ m = 11 then 30
  else 31

/-- The dates `datetime.date` can represent: year ≥ 1 (MINYEAR), month 1–12,
day within the month. -/
def validb (d : Date) : Bool :=
  decide (1 ≤ d.year ∧ 1 ≤ d.month ∧ d.month ≤ 12 ∧ 1 ≤ d.day ∧
    d.day ≤ daysInMonth d.year d.month)

/-- The day after `d` on the proleptic Gregorian calendar. -/
def nextDay (d : Date) : Date :=
  if d.day < daysInMonth d.year d.month then ⟨d.year, d.month, d.day + 1⟩
  else if d.month < 12 then ⟨d.year, d.month + 1, 1⟩
  else ⟨d.year + 1, 1, 1⟩

/-- `d + timedelta(days = n)`: adding a timedelta advances the date by
`n` successor days. -/
def addDays (d : Date) (n : Nat) : Date :=
  nextDay^[n] d

/-- Days of all years strictly before year `y`
(`365*n + n//4 - n//100 + n//400` for `n = y - 1`, as in `datetime._days_before_year`). -/
def daysBeforeYear (y : Nat) : Nat :=
  365 * (y - 1) + (y - 1) / 4 + (y - 1) / 400 - (y - 1) / 100

/-- Days of the months of year `y` strictly before month `m`
(`datetime._days_before_month`). -/
def daysBeforeMonth (y m : Nat) : Nat :=
  let l := if isLeap y then 1 else 0
  match m with
  | 1 => 0
  | 2 => 31
  | 3 => 59 + l
  | 4 => 90 + l
  | 5 => 120 + l
  | 6 => 151 + l
  | 7 => 181 + l
  | 8 => 212 + l
  | 9 => 243 + l
  | 10 => 273 + l
  | 11 => 304 + l
  | 12 => 334 + l
  | _ => 0

/-- Python's `date.toordinal()`: day number with `date(1, 1, 1).toordinal() = 1`. -/
def toOrdinal (d : Date) : Nat :=
  daysBeforeYear d.year + daysBeforeMonth d.year d.month + d.day

/-- Python's `date.weekday()`: Monday = 0 … Sunday = 6. -/
def weekday (d : Date) : Nat :=
  (toOrdinal d + 6) % 7

/-- `date.max.toordinal()`: the ordinal of 9999-12-31, the largest value a
Python `datetime` can hold; `+ timedelta` raises `OverflowError` past it. -/
def maxOrdinal : Nat := 3652059

/-- `d + timedelta(days = n)` including Python's range check: `none` models
the `OverflowError` raised when the result would pass `datetime.max`. -/
def addDaysChecked (d : Date) (n : Nat) : Option Date :=
  let r := addDays d n
  if toOrdinal r ≤ maxOrdinal then some r else none

/-! ### Calendar lemmas -/

theorem daysInMonth_pos (y m : Nat) : 1 ≤ daysInMonth y m := by
  unfold daysInMonth
  split
  · split <;> omega
  · split <;> omega

theorem validb_nextDay {d : Date} (h : validb d = true) :
    validb (nextDay d) = true := by
  have h' := of_decide_eq_true h
  unfold nextDay
  split
  · exact decide_eq_true (by
      simp only at *
      refine ⟨h'.1, h'.2.1, h'.2.2.1, by omega, by omega⟩)
  · split
    · exact decide_eq_true (by
        simp only at *
        exact ⟨h'.1, by omega, by omega, le_refl 1, daysInMonth_pos _ _⟩)
    · exact decide_eq_true (by
        simp only at *
        exact ⟨by omega, le_refl 1, by omega, le_refl 1, daysInMonth_pos _ _⟩)

theorem div_step (n k : Nat) :
    (n + 1) / k = n / k + if (n + 1) % k = 0 then 1 else 0 := by
  rw [Nat.succ_div]
  congr 1
  by_cases h : k ∣ n + 1
  · rw [if_pos h, if_pos (Nat.mod_eq_zero_of_dvd h)]
  · rw [if_neg h, if_neg (fun hm => h (Nat.dvd_of_mod_eq_zero hm))]

theorem daysBeforeYear_add (y : Nat) :
    daysBeforeYear y + (y - 1) / 100 =
      365 * (y - 1) + (y - 1) / 4 + (y - 1) / 400 := by
  refine Nat.sub_add_cancel ?_
  calc (y - 1) / 100 ≤ y - 1 := Nat.div_le_self _ _
    _ ≤ 365 * (y - 1) := Nat.le_mul_of_pos_left _ (by norm_num)
    _ ≤ 365 * (y - 1) + (y - 1) / 4 := Nat.le_add_right _ _
    _ ≤ 365 * (y - 1) + (y - 1) / 4 + (y - 1) / 400 := Nat.le_add_right _ _

theorem daysBeforeYear_succ (y : Nat) (hy : 1 ≤ y) :
    daysBeforeYear (y + 1) = daysBeforeYear y + 365 + (if isLeap y then 1 else 0) := by
  obtain ⟨n, rfl⟩ := Nat.exists_eq_add_of_le' hy
  have A := daysBeforeYear_add (n + 1 + 1)
  have B := daysBeforeYear_add (n + 1)
  simp only [Nat.add_sub_cancel] at A B
  rw [div_step n 4, div_step n 100, div_step n 400] at A
  simp only [isLeap, decide_eq_true_eq]
  by_cases h400 : (n + 1) % 400 = 0
  · have h100 : (n + 1) % 100 = 0 := by omega
    have h4 : (n + 1) % 4 = 0 := by omega
    rw [if_pos h4, if_pos h100, if_pos h400] at A
    rw [if_pos ⟨h4, Or.inr h400⟩]
    clear h4 h100 h400
    omega
  · by_cases h100 : (n + 1) % 100 = 0
    · have h4 : (n + 1) % 4 = 0 := by omega
      rw [if_pos h4, if_pos h100, if_neg h400] at A
      rw [if_neg (fun hc => hc.2.elim (fun a => a h100) h400)]
      clear h4 h100 h400
      omega
    · by_cases h4 : (n + 1) % 4 = 0
      · rw [if_pos h4, if_neg h100, if_neg h400] at A
        rw [if_pos ⟨h4, Or.inl h100⟩]
        clear h4 h100 h400
        omega
      · rw [if_neg h4, if_neg h100, if_neg h400] at A
        rw [if_neg (fun hc => h4 hc.1)]
        clear h4 h100 h400
        omega

theorem daysBeforeMonth_succ (y m : Nat) (h1 : 1 ≤ m) (h2 : m ≤ 11) :
    daysBeforeMonth y (m + 1) = daysBeforeMonth y m + daysInMonth y m := by
  interval_cases m <;>
    simp only [daysBeforeMonth, daysInMonth] <;>
    cases isLeap y <;> simp

theorem toOrdinal_nextDay {d : Date} (h : validb d = true) :
    toOrdinal (nextDay d) = toOrdinal d + 1 := by
  obtain ⟨h1, h2, h3, h4, h5⟩ := of_decide_eq_true h
  unfold nextDay
  split
  · simp only [toOrdinal]
    omega
  · next hday =>
    have hd : d.day = daysInMonth d.year d.month := by omega
    split
    · next hm =>
      simp only [toOrdinal]
      rw [daysBeforeMonth_succ d.year d.month h2 (by omega)]
      omega
    · next hm =>
      have hm12 : d.month = 12 := by omega
      simp only [toOrdinal]
      rw [daysBeforeYear_succ d.year h1]
      have hdim : daysInMonth d.year d.month = 31 := by
        rw [hm12]; simp [daysInMonth]
      have hdbm : daysBeforeMonth d.year d.month =
          334 + (if isLeap d.year then 1 else 0) := by
        rw [hm12]; simp [daysBeforeMonth]
      have hdbm1 : daysBeforeMonth (d.year + 1) 1 = 0 := by
        simp [daysBeforeMonth]
      rw [hdbm1, hdbm]
      omega

theorem validb_addDays {d : Date} (h : validb d = true) (n : Nat) :
    validb (addDays d n) = true := by
  induction n with
  | zero => simpa [addDays] using h
  | succ k ih =>
    have : addDays d (k + 1) = nextDay (addDays d k) := by
      simp [addDays, Function.iterate_succ_apply']
    rw [this]
    exact validb_nextDay ih

theorem toOrdinal_addDays {d : Date} (h : validb d = true) (n : Nat) :
    toOrdinal (addDays d n) = toOrdinal d + n := by
  induction n with
  | zero => simp [addDays]
  | succ k ih =>
    have : addDays d (k + 1) = nextDay (addDays d k) := by
      simp [addDays, Function.iterate_succ_apply']
    rw [this, toOrdinal_nextDay (validb_addDays h k), ih]
    omega

theorem addDays_addDays (d : Date) (a b : Nat) :
    addDays (addDays d a) b = addDays d (a + b) := by
  simp [addDays, Nat.add_comm a b, Function.iterate_add_apply]

theorem weekday_addDays {d : Date} (h : validb d = true) (n : Nat) :
    weekday (addDays d n) = (weekday d + n) % 7 := by
  simp [weekday, toOrdinal_addDays h n]
  omega

theorem weekday_lt (d : Date) : weekday d < 7 := by
  simp [weekday]
  omega

/-! ## Date strings: `strptime(s, '%Y-%m-%d')` and `strftime('%Y-%m-%d')` -/

/-- The decimal digit character for `n % 10`. -/
def digitChar (n : Nat) : Char :=
  match n with
  | 0 => '0' | 1 => '1' | 2 => '2' | 3 => '3' | 4 => '4'
  | 5 => '5' | 6 => '6' | 7 => '7' | 8 => '8' | 9 => '9'
  | _ => '0'

/-- Value of a decimal digit list, most significant first. -/
def digitsToNat (l : List Char) : Nat :=
  l.foldl (fun a c => 10 * a + (c.toNat - 48)) 0

/-- Split a character list on a separator character (Python `str.split(sep)`
for a one-character separator: always returns at least one piece). -/
def splitOnChar (sep : Char) : List Char → List (List Char)
  | [] => [[]]
  | x :: t =>
    if x = sep then [] :: splitOnChar sep t
    else
      match splitOnChar sep t with
      | h :: r => (x :: h) :: r
      | [] => [[x]]

/-- Two-digit zero-padded decimal (`%m`, `%d`). -/
def padNat2 (n : Nat) : List Char := [digitChar (n / 10 % 10), digitChar (n % 10)]

/-- Four-digit zero-padded decimal (`%Y` for the years 1000–9999 the
scripts live in). -/
def padNat4 (n : Nat) : List Char :=
  [digitChar (n / 1000 % 10), digitChar (n / 100 % 10),
   digitChar (n / 10 % 10), digitChar (n % 10)]

/-- `date.strftime('%Y-%m-%d')`. -/
def formatDate (d : Date) : String :=
  String.mk (padNat4 d.year ++ '-' :: (padNat2 d.month ++ '-' :: padNat2 d.day))

/-- `datetime.strptime(s, '%Y-%m-%d')`: `%Y` matches exactly four digits,
`%m` and `%d` one or two; the `datetime` constructor then validates the
fields. `none` models the `ValueError` raised on a malformed string. -/
def parseDate (s : String) : Option Date :=
  match splitOnChar '-' s.toList with
  | [ys, ms, ds] =>
    if (ys.length == 4) && ys.all Char.isDigit &&
        (ms.length == 1 || ms.length == 2) && ms.all Char.isDigit &&
        (ds.length == 1 || ds.length == 2) && ds.all Char.isDigit then
      if validb ⟨digitsToNat ys, digitsToNat ms, digitsToNat ds⟩ then
        some ⟨digitsToNat ys, digitsToNat ms, digitsToNat ds⟩
      else none
    else none
  | _ => none

theorem parseDate_valid {s : String} {d : Date} (h : parseDate s = some d) :
    validb d = true := by
  unfold parseDate at h
  split at h
  · split at h
    · split at h
      · injection h with h'
        subst h'
        assumption
      · exact absurd h (by simp)
    · exact absurd h (by simp)
  · exact absurd h (by simp)

/-! ## Cycle calculators (`calculate_six_week_cycles`,
`calculate_two_week_cooling_periods`), identical in
create_cycle_and_cooling_period_pages.py, long_cycle_date_resolver.py and
update_long_cycle_start_dates.py -/

/-- The dict returned by `calculate_six_week_cycles(start_date)`, as the
tuple (`6_week_cycle_start_date`, `6_week_cycle_end_date`,
`next_6_week_cycle_start_date`, `next_6_week_cycle_end_date`).
`none` models a raised `ValueError`/`OverflowError`. -/
def calculate_six_week_cycles (start_date : String) :
    Option (String × String × String × String) :=
  match parseDate start_date with
  | none => none
  | some start =>
    match addDaysChecked start (7 * 6 - 1) with
    | none => none
    | some e =>
      match addDaysChecked e 15 with
      | none => none
      | some next_start =>
        match addDaysChecked next_start (7 * 6 - 1) with
        | none => none
        | some next_end =>
          some (start_date, formatDate e, formatDate next_start, formatDate next_end)

/-- The dict returned by `calculate_two_week_cooling_periods(start_date)`,
as the tuple (`two_week_cooling_period_start_date`, end, next start,
next end); the next period starts `timedelta(weeks=8)` after `start`. -/
def calculate_two_week_cooling_periods (start_date : String) :
    Option (String × String × String × String) :=
  match parseDate start_date with
  | none => none
  | some start =>
    match addDaysChecked start 13 with
    | none => none
    | some e =>
      match addDaysChecked start (7 * 8) with
      | none => none
      | some next_start =>
        match addDaysChecked next_start 13 with
        | none => none
        | some next_end =>
          some (start_date, formatDate e, formatDate next_start, formatDate next_end)

theorem addDaysChecked_of_le {d : Date} (hv : validb d = true) (k : Nat)
    (hk : toOrdinal d + k ≤ maxOrdinal) :
    addDaysChecked d k = some (addDays d k) := by
  unfold addDaysChecked
  rw [if_pos (by rw [toOrdinal_addDays hv]; exact hk)]

/-! ## Next-weekday computations (C1) -/

/-- create_weeks.py lines 53–57 (also create_newsletter_page.py 35–38):
days from today to the upcoming Sunday, rolled to 7 when today is Sunday. -/
def days_until_sunday_rolled (d : Date) : Nat :=
  if (6 - weekday d) % 7 = 0 then 7 else (6 - weekday d) % 7

/-- The `upcoming_sunday` computed by create_weeks.py. -/
def upcoming_sunday (d : Date) : Date := addDays d (days_until_sunday_rolled d)

/-- update_daily_properties.py `get_week_ending_sunday` lines 55–60: the
offset `(6 - tomorrow.weekday()) % 7` with no roll for the Sunday case. -/
def days_until_sunday (d : Date) : Nat := (6 - weekday d) % 7

/-- The date underlying `get_week_ending_sunday`. -/
def week_ending_sunday_date (d : Date) : Date := addDays d (days_until_sunday d)

/-- `get_week_ending_sunday` itself returns `strftime('%Y-%m-%d')`. -/
def get_week_ending_sunday (d : Date) : String :=
  formatDate (week_ending_sunday_date d)

/-! ## C1 -/

/-- C1, counterexample: on Sunday 2023-01-01, `get_week_ending_sunday`
(update_daily_properties.py) returns the same date, not date + 7 days, so
the claim that every next-weekday computation returns D + 7 when D already
has the target weekday is false for this script. -/
theorem C1_counterexample :
    weekday ⟨2023, 1, 1⟩ = 6 ∧
    week_ending_sunday_date ⟨2023, 1, 1⟩ = ⟨2023, 1, 1⟩ ∧
    week_ending_sunday_date ⟨2023, 1, 1⟩ ≠ addDays ⟨2023, 1, 1⟩ 7 :=
  ⟨by decide, by decide, by decide⟩

/-- C1, amended: both scripts compute D plus `(6 - D.weekday()) % 7` days,
so the result always lands on a Sunday on or after D; create_weeks.py rolls
a zero offset to 7 (a Sunday D maps to D + 7 and the result is strictly
after D), while update_daily_properties.py's `get_week_ending_sunday`
applies no roll and returns D itself when D is already a Sunday. -/
theorem C1_next_weekday (d : Date) (h : validb d = true) :
    weekday (upcoming_sunday d) = 6 ∧
    toOrdinal d < toOrdinal (upcoming_sunday d) ∧
    (weekday d = 6 → upcoming_sunday d = addDays d 7) ∧
    weekday (week_ending_sunday_date d) = 6 ∧
    toOrdinal d ≤ toOrdinal (week_ending_sunday_date d) ∧
    (weekday d = 6 → week_ending_sunday_date d = d) ∧
    get_week_ending_sunday d = formatDate (week_ending_sunday_date d) := by
  have hw : weekday d < 7 := weekday_lt d
  refine ⟨?_, ?_, ?_, ?_, ?_, ?_, rfl⟩
  · unfold upcoming_sunday days_until_sunday_rolled
    rw [weekday_addDays h]
    split <;> omega
  · unfold upcoming_sunday days_until_sunday_rolled
    rw [toOrdinal_addDays h]
    split <;> omega
  · intro h6
    unfold upcoming_sunday days_until_sunday_rolled
    rw [h6]
    norm_num
  · unfold week_ending_sunday_date days_until_sunday
    rw [weekday_addDays h]
    omega
  · unfold week_ending_sunday_date days_until_sunday
    rw [toOrdinal_addDays h]
    omega
  · intro h6
    unfold week_ending_sunday_date days_until_sunday
    rw [h6]
    simp [addDays]

/-- Witness for C1_next_weekday at the Wednesday 2025-10-08. -/
theorem C1_witness :
    weekday (upcoming_sunday ⟨2025, 10, 8⟩) = 6 ∧
    weekday (week_ending_sunday_date ⟨2025, 10, 8⟩) = 6 := by
  have h := C1_next_weekday ⟨2025, 10, 8⟩ (by decide)
  exact ⟨h.1, h.2.2.2.1⟩

/-! ## C2 and C8 -/

/-- C2, counterexample: "9999-12-25" is a valid YYYY-MM-DD date string, but
`calculate_six_week_cycles` raises `OverflowError` (modelled `none`) because
start + 41 days exceeds `datetime.max`, instead of returning the four
dates. -/
theorem C2_counterexample :
    parseDate "9999-12-25" = some ⟨9999, 12, 25⟩ ∧
    calculate_six_week_cycles "9999-12-25" = none :=
  ⟨by decide, by set_option maxRecDepth 40000 in decide⟩

theorem six_week_cycles_spec (s : String) (d : Date) (h : parseDate s = some d)
    (hr : toOrdinal d + 97 ≤ maxOrdinal) :
    calculate_six_week_cycles s =
      some (s, formatDate (addDays d 41), formatDate (addDays d 56),
        formatDate (addDays d 97)) := by
  have hv := parseDate_valid h
  unfold calculate_six_week_cycles
  rw [h]
  norm_num
  rw [addDaysChecked_of_le hv 41 (by omega)]
  dsimp only
  rw [addDaysChecked_of_le (validb_addDays hv 41) 15
    (by rw [toOrdinal_addDays hv]; omega)]
  dsimp only
  rw [addDays_addDays]
  norm_num
  rw [addDaysChecked_of_le (validb_addDays hv 56) 41
    (by rw [toOrdinal_addDays hv]; omega)]
  dsimp only
  rw [addDays_addDays]

/-- C2, amended: for every start string parsing as a valid date whose
97-days-later date is still within `datetime`'s range,
`calculate_six_week_cycles` returns the start string unchanged, the end
41 days after start, the next start 56 days after start, and the next end
97 days after start (41 after the next start), all via
`strftime('%Y-%m-%d')`. -/
theorem C2_six_week_cycles (s : String) (d : Date) (h : parseDate s = some d)
    (hr : toOrdinal d + 97 ≤ maxOrdinal) :
    calculate_six_week_cycles s =
      some (s, formatDate (addDays d 41), formatDate (addDays d 56),
        formatDate (addDays d 97)) :=
  six_week_cycles_spec s d h hr

set_option maxRecDepth 40000 in
set_option maxHeartbeats 2000000 in
/-- Witness for C2_six_week_cycles at 2025-04-02. -/
theorem C2_witness :
    calculate_six_week_cycles "2025-04-02" =
      some ("2025-04-02", "2025-05-13", "2025-05-28", "2025-07-08") :=
  (C2_six_week_cycles "2025-04-02" ⟨2025, 4, 2⟩ (by decide) (by decide)).trans
    (by decide)

/-- C8, counterexample: "9999-11-15" is a valid YYYY-MM-DD date string, but
`calculate_two_week_cooling_periods` raises `OverflowError` (modelled
`none`) because start + 8 weeks exceeds `datetime.max`, instead of
returning the four dates. -/
theorem C8_counterexample :
    parseDate "9999-11-15" = some ⟨9999, 11, 15⟩ ∧
    calculate_two_week_cooling_periods "9999-11-15" = none :=
  ⟨by decide, by set_option maxRecDepth 40000 in decide⟩

theorem two_week_cooling_spec (s : String) (d : Date) (h : parseDate s = some d)
    (hr : toOrdinal d + 69 ≤ maxOrdinal) :
    calculate_two_week_cooling_periods s =
      some (s, formatDate (addDays d 13), formatDate (addDays d 56),
        formatDate (addDays d 69)) := by
  have hv := parseDate_valid h
  unfold calculate_two_week_cooling_periods
  rw [h]
  norm_num
  rw [addDaysChecked_of_le hv 13 (by omega)]
  dsimp only
  rw [addDaysChecked_of_le hv 56 (by omega)]
  dsimp only
  rw [addDaysChecked_of_le (validb_addDays hv 56) 13
    (by rw [toOrdinal_addDays hv]; omega)]
  dsimp only
  rw [addDays_addDays]

/-- C8, amended: for every start string parsing as a valid date whose
69-days-later date is still within `datetime`'s range,
`calculate_two_week_cooling_periods` returns the start string unchanged,
the end 13 days after start (a 14-day inclusive period), the next start
8 weeks = 56 days after start, and the next end 69 days after start
(13 after the next start); when the six-week calculator is also in range,
both advance to the same next start 56 days out. -/
theorem C8_cooling_periods (s : String) (d : Date) (h : parseDate s = some d)
    (hr : toOrdinal d + 69 ≤ maxOrdinal) :
    calculate_two_week_cooling_periods s =
      some (s, formatDate (addDays d 13), formatDate (addDays d 56),
        formatDate (addDays d 69)) ∧
    (toOrdinal d + 97 ≤ maxOrdinal →
      (calculate_six_week_cycles s).map (fun t => t.2.2.1) =
        (calculate_two_week_cooling_periods s).map (fun t => t.2.2.1)) := by
  have hmain := two_week_cooling_spec s d h hr
  refine ⟨hmain, fun h97 => ?_⟩
  have h6 := six_week_cycles_spec s d h h97
  rw [hmain, h6]
  simp only [Option.map_some']

set_option maxRecDepth 40000 in
set_option maxHeartbeats 2000000 in
/-- Witness for C8_cooling_periods at 2025-07-09. -/
theorem C8_witness :
    calculate_two_week_cooling_periods "2025-07-09" =
      some ("2025-07-09", "2025-07-22", "2025-09-03", "2025-09-16") := by
  have h := C8_cooling_periods "2025-07-09" ⟨2025, 7, 9⟩ (by decide) (by decide)
  exact h.1.trans (by decide)

/-! ## Text model: Python strings as character lists -/

/-- `p` is a leading run of `s` (Python `str.startswith`). -/
def leadEq : List Char → List Char → Bool
  | [], _ => true
  | _ :: _, [] => false
  | a :: as, b :: bs => a == b && leadEq as bs

/-- Python's `p in s` for strings: `p` occurs as a contiguous run of `s`. -/
def hasSub (p : List Char) : List Char → Bool
  | [] => leadEq p []
  | c :: t => leadEq p (c :: t) || hasSub p t

theorem leadEq_self_append (p x : List Char) : leadEq p (p ++ x) = true := by
  induction p with
  | nil => rfl
  | cons c t ih => simp [leadEq, ih]

theorem hasSub_of_append (p a b : List Char) :
    hasSub p (a ++ (p ++ b)) = true := by
  induction a with
  | nil =>
    cases p with
    | nil =>
      cases b with
      | nil => rfl
      | cons c t => simp [hasSub, leadEq]
    | cons c t =>
      simp [hasSub, leadEq, leadEq_self_append]
  | cons c t ih => simp [hasSub, ih]

/-- Python `str.strip()`: drop whitespace from both ends. -/
def trimChars (l : List Char) : List Char :=
  ((l.dropWhile Char.isWhitespace).reverse.dropWhile Char.isWhitespace).reverse

/-- `'\n'.join(lines)`. -/
def joinNl : List (List Char) → List Char
  | [] => []
  | [l] => l
  | l :: ls => l ++ '\n' :: joinNl ls

/-- The `---` front-matter delimiter line. -/
def dashes : List Char := ['-', '-', '-']

/-- Scan lines for the first one that strips to `---` (the loop in both
`extract_yaml_metadata` and `parse_yaml_frontmatter`): returns the lines
before it, the delimiter line itself, and the lines after it. -/
def findClose : List (List Char) → Option (List (List Char) × List Char × List (List Char))
  | [] => none
  | l :: t =>
    if trimChars l = dashes then some ([], l, t)
    else
      match findClose t with
      | some (ys, cl, rest) => some (l :: ys, cl, rest)
      | none => none

/-! ## File-creation idempotence model (C3) -/

/-- The create-if-absent pattern of create_weeks.py, create_newsletter_page.py
and create_daily_journal.py: a folder is the list of (name, content) files
it holds; `files_get_metadata` probes for the exact target name, and the
upload happens only when the probe reports the file missing. -/
def create_file_if_absent (folder : List (String × String)) (nm body : String) :
    List (String × String) :=
  if folder.any (fun e => e.1 == nm) then folder else folder ++ [(nm, body)]

/-- create_new_cycle_page.py `date_range_exists`: scan the folder for a file
whose name contains the date range as a substring. -/
def date_range_exists (folder : List (String × String)) (range : String) : Bool :=
  folder.any (fun e => hasSub range.data e.1.data)

/-- create_new_cycle_page.py: `f"Cycle {n} {date_range}.md"`. -/
def cycle_file_name (n : Nat) (range : String) : String :=
  "Cycle " ++ toString n ++ " " ++ range ++ ".md"

/-- create_new_cycle_page.py `create_cycle_file`: skip when a file with the
same date range exists, else upload the new cycle file. -/
def create_cycle_file (folder : List (String × String)) (n : Nat)
    (range content : String) : List (String × String) :=
  if date_range_exists folder range then folder
  else folder ++ [(cycle_file_name n range, content)]

theorem cycle_name_has_range (n : Nat) (range : String) :
    hasSub range.data (cycle_file_name n range).data = true := by
  have h : (cycle_file_name n range).data =
      ("Cycle " ++ toString n ++ " ").data ++ (range.data ++ ".md".data) := by
    simp [cycle_file_name, String.data_append, List.append_assoc]
  rw [h]
  exact hasSub_of_append _ _ _

/-- C3: the create-X-for-date-D scripts are idempotent. A pre-existence
check runs before any upload; when the target exists the folder is
returned unchanged; running an operation twice leaves exactly one file for
the date (for the metadata-probe scripts, counted by exact name; for
create_new_cycle_page.py the second run is a no-op because the uploaded
name contains the probed date range). -/
theorem C3_create_idempotent (folder : List (String × String))
    (nm body body' : String)
    (hcount : (folder.map Prod.fst).count nm ≤ 1) :
    create_file_if_absent (create_file_if_absent folder nm body) nm body' =
      create_file_if_absent folder nm body ∧
    ((create_file_if_absent folder nm body).map Prod.fst).count nm = 1 ∧
    (nm ∈ folder.map Prod.fst → create_file_if_absent folder nm body = folder) ∧
    (∀ (n n' : Nat) (range content content' : String),
      create_cycle_file (create_cycle_file folder n range content) n' range content' =
        create_cycle_file folder n range content ∧
      (date_range_exists folder range = true →
        create_cycle_file folder n range content = folder)) := by
  have hmem : folder.any (fun e => e.1 == nm) = true ↔ nm ∈ folder.map Prod.fst := by
    simp [List.any_eq_true, List.mem_map]
  refine ⟨?_, ?_, ?_, ?_⟩
  · by_cases h : folder.any (fun e => e.1 == nm) = true
    · simp [create_file_if_absent, h]
    · simp only [create_file_if_absent, if_neg h]
      rw [if_pos]
      simp [List.any_append]
  · by_cases h : folder.any (fun e => e.1 == nm) = true
    · simp only [create_file_if_absent, if_pos h]
      have h1 : nm ∈ folder.map Prod.fst := hmem.mp h
      have h2 : 1 ≤ (folder.map Prod.fst).count nm := List.one_le_count_iff.mpr h1
      omega
    · simp only [create_file_if_absent, if_neg h]
      have h0 : nm ∉ folder.map Prod.fst := fun hm => h (hmem.mpr hm)
      simp [List.count_eq_zero_of_not_mem h0]
  · intro hm
    simp [create_file_if_absent, hmem.mpr hm]
  · intro n n' range content content'
    constructor
    · by_cases h : date_range_exists folder range = true
      · simp [create_cycle_file, h]
      · simp only [create_cycle_file, if_neg h]
        rw [if_pos]
        simp only [date_range_exists, List.any_append, List.any_cons, List.any_nil,
          Bool.or_eq_true]
        exact Or.inr (Or.inl (cycle_name_has_range n range))
    · intro h
      simp [create_cycle_file, h]

/-- Witness for C3_create_idempotent on a one-file folder. -/
theorem C3_witness :
    create_file_if_absent
        (create_file_if_absent [("a.md", "x")] "Week-Ending-2025-10-12.md" "w")
        "Week-Ending-2025-10-12.md" "w" =
      create_file_if_absent [("a.md", "x")] "Week-Ending-2025-10-12.md" "w" :=
  (C3_create_idempotent [("a.md", "x")] "Week-Ending-2025-10-12.md" "w" "w"
    (by decide)).1

/-! ## add_daily_review_section (C9) and parse_yaml_frontmatter -/

/-- add_daily_review_section.py `parse_yaml_frontmatter(content)`:
requires the content to start with exactly `---\n`, splits on `'\n'`,
scans for the first later line stripping to `---`; when found, returns
(`'\n'.join(lines[:i+1]) + '\n\n'`, `'\n'.join(lines[i+1:]).lstrip('\n')`),
otherwise returns `("", content)` unchanged. -/
def parse_yaml_frontmatter (content : List Char) : List Char × List Char :=
  if leadEq ('-' :: '-' :: '-' :: '\n' :: []) content then
    match splitOnChar '\n' content with
    | [] => ([], content)
    | l0 :: rest =>
      match findClose rest with
      | none => ([], content)
      | some (ybody, cl, after) =>
        (joinNl (l0 :: (ybody ++ [cl])) ++ ('\n' :: '\n' :: []),
         (joinNl after).dropWhile (fun c => c == '\n'))
  else ([], content)

/-- The substring probed by the existence check. -/
def daily_review_marker : List Char := "Daily Review:".data

/-- The `daily_review_content` block inserted after the front matter. -/
def daily_review_content : List Char :=
  ("Daily Review:\n\n" ++
   "Win 1:\n\n" ++
   "Win 2 (What part of today was easiest, most enjoyable, and most effective in the direction of my dream reality?):\n\n" ++
   "Win 3 (What proof from today demonstrates that my Master Vision is unfolding before my eyes? And how did I create this win for myself?):\n\n" ++
   "What did not go well today...\n" ++
   "Be as brief or as detailed as you like:\n\n" ++
   "What concrete steps will you take to improve and make your life easier?\n\n" ++
   "Lastly, what are a few things you are grateful for?\n" ++
   "Think of something new or different than usual!\n\n" ++
   "---\n\n").data

/-- add_daily_review_section.py lines 104–121 acting on the downloaded file
content: if `"Daily Review:" in current_content` the function returns
without uploading; otherwise it uploads
`yaml_section + daily_review_content + main_content`. -/
def add_daily_review_section (content : List Char) : List Char :=
  if hasSub daily_review_marker content then content
  else
    (parse_yaml_frontmatter content).1 ++ daily_review_content ++
      (parse_yaml_frontmatter content).2

set_option maxRecDepth 100000 in
theorem daily_review_content_starts :
    daily_review_content =
      daily_review_marker ++ daily_review_content.drop 13 := by
  decide

/-- C9: add_daily_review_section is idempotent: a file already containing
"Daily Review:" is returned unchanged (no upload), so a second run never
inserts a second block, and when the marker is absent the block is inserted
between the parsed YAML section and the main content. -/
theorem C9_daily_review_idempotent (content : List Char) :
    (hasSub daily_review_marker content = true →
      add_daily_review_section content = content) ∧
    add_daily_review_section (add_daily_review_section content) =
      add_daily_review_section content ∧
    (hasSub daily_review_marker content = false →
      add_daily_review_section content =
        (parse_yaml_frontmatter content).1 ++ daily_review_content ++
          (parse_yaml_frontmatter content).2) := by
  refine ⟨?_, ?_, ?_⟩
  · intro h
    simp [add_daily_review_section, h]
  · by_cases h : hasSub daily_review_marker content = true
    · simp [add_daily_review_section, h]
    · have hres : add_daily_review_section content =
          (parse_yaml_frontmatter content).1 ++ daily_review_content ++
            (parse_yaml_frontmatter content).2 := by
        simp [add_daily_review_section, h]
      rw [hres]
      have hmarker : hasSub daily_review_marker
          ((parse_yaml_frontmatter content).1 ++ (daily_review_content ++
            (parse_yaml_frontmatter content).2)) = true := by
        rw [daily_review_content_starts]
        have := hasSub_of_append daily_review_marker
          (parse_yaml_frontmatter content).1
          (daily_review_content.drop 13 ++ (parse_yaml_frontmatter content).2)
        simpa [List.append_assoc] using this
      simp only [add_daily_review_section, List.append_assoc]
      rw [if_pos hmarker]
  · intro h
    simp [add_daily_review_section, h]

/-- Witness for C9_daily_review_idempotent on a small daily-action file. -/
theorem C9_witness :
    add_daily_review_section
        (add_daily_review_section "---\nDate: 2025-10-08\n---\ntasks".data) =
      add_daily_review_section "---\nDate: 2025-10-08\n---\ntasks".data :=
  (C9_daily_review_idempotent "---\nDate: 2025-10-08\n---\ntasks".data).2.1

/-! ## YAML front-matter model (C4, C10)

`yaml.safe_load` / `yaml.safe_dump(..., default_flow_style=False,
sort_keys=False)` are third-party code; they are modelled here on the
fragment these scripts actually store in front matter — mappings from
plain string keys to string or list-of-string values, emitted one
`key: value` / `key:` + `- item` block per entry, single-quoting a scalar
whose plain form would misparse. The parser validates: it only accepts
what the modelled emitter (or a hand-written file in the same fragment)
produces. -/

/-- Python `str.splitlines()` restricted to LF-separated text (these
scripts only ever produce `\n`). -/
def splitlines (l : List Char) : List (List Char) :=
  if l = [] then []
  else if (splitOnChar '\n' l).getLast? = some [] then (splitOnChar '\n' l).dropLast
  else splitOnChar '\n' l

/-- The single-quote character. -/
def squote : Char := Char.ofNat 39

/-- Characters allowed anywhere in a plain (unquoted) scalar or key. -/
def plainCharOk (c : Char) : Bool :=
  !(c == ':' || c == '#' || c == squote || c == '\n' || c == '\t' || c == '\r')

/-- Characters allowed as the first character of a plain scalar or key. -/
def headCharOk (c : Char) : Bool :=
  !(c == '-' || c == '[' || c == ']' || c == '{' || c == '}' || c == '&' ||
    c == '*' || c == '!' || c == '|' || c == '>' || c == '%' || c == '@' ||
    c == '"' || c == '?' || c == ' ')

/-- A scalar the emitter may leave in plain style. -/
def plainOk (v : List Char) : Bool :=
  match v with
  | [] => false
  | c :: _ => headCharOk c && v.all plainCharOk && !(v.getLast? == some ' ')

/-- Emit a scalar, single-quoting when the plain style would misparse. -/
def emitScalar (v : List Char) : List Char :=
  if plainOk v then v else squote :: (v ++ [squote])

/-- A YAML value as stored by these scripts: a string, or a list of
strings (the `[[wikilink]]` relationship lists). -/
inductive YamlValue where
  | scalar (s : List Char)
  | seq (items : List (List Char))
deriving DecidableEq, Repr

/-- An insertion-ordered YAML mapping (`sort_keys=False`). -/
abbrev YamlMap := List (List Char × YamlValue)

/-- Scalars the model can quote: no quote character, no newline. -/
def scalarWF (v : List Char) : Bool :=
  v.all (fun c => !(c == squote || c == '\n'))

def valueWF : YamlValue → Bool
  | .scalar s => scalarWF s
  | .seq items => !items.isEmpty && items.all scalarWF

def mapWF (m : YamlMap) : Bool :=
  m.all (fun e => plainOk e.1 && valueWF e.2)

/-- Lines emitted for one mapping entry. -/
def dumpValue (k : List Char) : YamlValue → List (List Char)
  | .scalar s => [k ++ ':' :: ' ' :: emitScalar s]
  | .seq items => (k ++ [':']) :: items.map (fun s => '-' :: ' ' :: emitScalar s)

/-- The lines of `yaml.safe_dump(m, default_flow_style=False, sort_keys=False)`. -/
def dumpLines : YamlMap → List (List Char)
  | [] => []
  | (k, v) :: t => dumpValue k v ++ dumpLines t

/-- Parse one scalar (plain or single-quoted). -/
def parseScalar (s : List Char) : Option (List Char) :=
  match s with
  | [] => none
  | c :: t =>
    if c == squote then
      if t.getLast? == some squote &&
          t.dropLast.all (fun x => !(x == squote || x == '\n')) then
        some t.dropLast
      else none
    else if plainOk (c :: t) then some (c :: t) else none

/-- Split a line at its first colon. -/
def splitColon : List Char → Option (List Char × List Char)
  | [] => none
  | c :: t =>
    if c == ':' then some ([], t)
    else
      match splitColon t with
      | some (a, b) => some (c :: a, b)
      | none => none

/-- A `- item` sequence line. -/
def isItemLine (l : List Char) : Bool := leadEq ('-' :: ' ' :: []) l

theorem length_dropWhile_le (p : α → Bool) (l : List α) :
    (l.dropWhile p).length ≤ l.length := by
  induction l with
  | nil => simp
  | cons c t ih =>
    rw [List.dropWhile_cons]
    split
    · exact le_trans ih (by simp)
    · simp

/-- Model of `yaml.safe_load` on the stored fragment, one mapping entry
per `key: value` line or `key:` + `- item` block; `none` models a
`YAMLError`. -/
def loadLines : List (List Char) → Option YamlMap
  | [] => some []
  | l :: rest =>
    match splitColon l with
    | none => none
    | some (k, after) =>
      if plainOk k then
        match after with
        | [] =>
          match (rest.takeWhile isItemLine).mapM (fun ln => parseScalar (ln.drop 2)) with
          | some (v :: vs) =>
            match loadLines (rest.dropWhile isItemLine) with
            | some mtail => some ((k, .seq (v :: vs)) :: mtail)
            | none => none
          | some [] => none
          | none => none
        | c :: v =>
          if c == ' ' then
            match parseScalar v with
            | none => none
            | some sv =>
              match loadLines rest with
              | none => none
              | some mtail => some ((k, .scalar sv) :: mtail)
          else none
      else none
  termination_by ls => ls.length
  decreasing_by
  all_goals simp only [List.length_cons]
  · exact Nat.lt_succ_of_le (length_dropWhile_le _ _)
  · omega

/-- Join lines each terminated by a newline (the shape of
`yaml.safe_dump` output). -/
def linesText : List (List Char) → List Char
  | [] => []
  | l :: t => l ++ '\n' :: linesText t

/-- The body of `extract_yaml_metadata` acting on the `splitlines` result:
check the first line strips to `---`, collect the YAML lines up to the
next such line (or all of them when none closes the block, in which case
the remaining content is `""`), parse them, and return
(metadata, `'\n'.join(remaining lines)`). -/
def extract_from_lines (lns : List (List Char)) (content : List Char) :
    Option (YamlMap × List Char) :=
  match lns with
  | [] => some ([], content)
  | l0 :: rest =>
    if trimChars l0 = dashes then
      match findClose rest with
      | some (ylines, _, after) =>
        match loadLines ylines with
        | some m => some (m, joinNl after)
        | none => none
      | none =>
        match loadLines rest with
        | some m => some (m, [])
        | none => none
    else some ([], content)

/-- update_daily_properties.py `extract_yaml_metadata(file_content)`;
`none` models the `(None, None)` returned on a `YAMLError`, and a file
without front matter returns `({}, content)`. -/
def extract_yaml_metadata (content : List Char) : Option (YamlMap × List Char) :=
  extract_from_lines (splitlines content) content

/-- update_daily_properties.py `save_updated_file`: the uploaded content is
`f"---\n{yaml.safe_dump(metadata, sort_keys=False)}---\n{content}"`. -/
def save_updated_content (m : YamlMap) (content : List Char) : List Char :=
  dashes ++ '\n' :: (linesText (dumpLines m) ++ (dashes ++ '\n' :: content))

/-! ### Line-splitting lemmas -/

theorem splitOnChar_ne_nil (c : Char) (l : List Char) : splitOnChar c l ≠ [] := by
  cases l with
  | nil => simp [splitOnChar]
  | cons x t =>
    unfold splitOnChar
    split
    · simp
    · split <;> simp

theorem splitOnChar_line (line rest : List Char)
    (h : line.all (fun c => !(c == '\n')) = true) :
    splitOnChar '\n' (line ++ '\n' :: rest) = line :: splitOnChar '\n' rest := by
  induction line with
  | nil =>
    simp only [List.nil_append]
    conv_lhs => unfold splitOnChar
    rw [if_pos rfl]
  | cons c t ih =>
    simp only [List.all_cons, Bool.and_eq_true] at h
    simp only [List.cons_append]
    conv_lhs => unfold splitOnChar
    rw [if_neg (by simpa using h.1), ih h.2]

theorem linesText_split (ls : List (List Char)) (rest : List Char)
    (h : ∀ l ∈ ls, l.all (fun c => !(c == '\n')) = true) :
    splitOnChar '\n' (linesText ls ++ rest) = ls ++ splitOnChar '\n' rest := by
  induction ls with
  | nil => rfl
  | cons l t ih =>
    simp only [linesText, List.cons_append, List.append_assoc]
    rw [show l ++ ('\n' :: (linesText t ++ rest)) = l ++ '\n' :: (linesText t ++ rest)
      from rfl]
    rw [splitOnChar_line l _ (h l (by simp))]
    rw [ih (fun x hx => h x (by simp [hx]))]

theorem joinNl_splitOnChar (l : List Char) : joinNl (splitOnChar '\n' l) = l := by
  induction l with
  | nil => rfl
  | cons c t ih =>
    unfold splitOnChar
    split
    · next hc =>
      subst hc
      have hne := splitOnChar_ne_nil '\n' t
      cases hs : splitOnChar '\n' t with
      | nil => exact absurd hs hne
      | cons h r =>
        rw [hs] at ih
        simp only [joinNl, List.nil_append]
        rw [← ih]
    · next hc =>
      have hne := splitOnChar_ne_nil '\n' t
      cases hs : splitOnChar '\n' t with
      | nil => exact absurd hs hne
      | cons h r =>
        rw [hs] at ih
        simp only [hs]
        cases r with
        | nil =>
          simp only [joinNl] at ih ⊢
          rw [ih]
        | cons r0 rs =>
          simp only [joinNl] at ih ⊢
          rw [List.cons_append, ih]

/-! ### Trim lemmas -/

theorem mem_dropWhile_of_not {α : Type} {p : α → Bool} {l : List α} {c : α}
    (hc : c ∈ l) (hp : p c = false) : c ∈ l.dropWhile p := by
  induction l with
  | nil => cases hc
  | cons a t ih =>
    rw [List.dropWhile_cons]
    split
    · next hpa =>
      rcases List.mem_cons.mp hc with rfl | hct
      · rw [hp] at hpa
        cases hpa
      · exact ih hct
    · exact hc

theorem mem_trimChars {l : List Char} {c : Char}
    (hc : c ∈ l) (hw : c.isWhitespace = false) : c ∈ trimChars l := by
  unfold trimChars
  have h1 : c ∈ l.dropWhile Char.isWhitespace := mem_dropWhile_of_not hc hw
  have h2 : c ∈ (l.dropWhile Char.isWhitespace).reverse := List.mem_reverse.mpr h1
  exact List.mem_reverse.mpr (mem_dropWhile_of_not h2 hw)

theorem trim_colon_ne_dashes (k tail : List Char) :
    trimChars (k ++ ':' :: tail) ≠ dashes := by
  intro h
  have hc : (':' : Char) ∈ k ++ ':' :: tail := by simp
  have hm := mem_trimChars hc (by decide)
  rw [h] at hm
  exact absurd hm (by decide)

theorem trim_item_ne_dashes (e : List Char) :
    trimChars ('-' :: ' ' :: e) ≠ dashes := by
  intro h
  have h0 : ('-' :: ' ' :: e).dropWhile Char.isWhitespace = '-' :: ' ' :: e := by
    rw [List.dropWhile_cons, if_neg (by decide)]
  have hsuf : (('-' :: ' ' :: e).reverse.dropWhile Char.isWhitespace) <:+
      ('-' :: ' ' :: e).reverse := List.dropWhile_suffix _
  have hpre : trimChars ('-' :: ' ' :: e) <+: '-' :: ' ' :: e := by
    unfold trimChars
    rw [h0]
    exact List.reverse_suffix.mp (by simpa using hsuf)
  rw [h] at hpre
  rcases hpre with ⟨r, hr⟩
  simp [dashes] at hr

theorem trimChars_dashes : trimChars dashes = dashes := by decide

/-! ### findClose lemmas -/

theorem findClose_append {ys : List (List Char)} (r : List (List Char))
    (hy : ∀ l ∈ ys, trimChars l ≠ dashes) :
    findClose (ys ++ dashes :: r) = some (ys, dashes, r) := by
  induction ys with
  | nil =>
    simp only [List.nil_append]
    unfold findClose
    rw [if_pos trimChars_dashes]
  | cons l t ih =>
    simp only [List.cons_append]
    unfold findClose
    rw [if_neg (hy l (by simp))]
    rw [ih (fun x hx => hy x (by simp [hx]))]

/-! ### Emitter/parser round-trip lemmas -/

theorem all_mono {α : Type} {p q : α → Bool} (l : List α)
    (hpq : ∀ x, p x = true → q x = true) (h : l.all p = true) : l.all q = true := by
  simp only [List.all_eq_true] at h ⊢
  exact fun x hx => hpq x (h x hx)

theorem plainOk_cases {v : List Char} (h : plainOk v = true) :
    v ≠ [] ∧ v.all plainCharOk = true ∧
      (∀ c, v.head? = some c → headCharOk c = true) := by
  cases v with
  | nil => simp [plainOk] at h
  | cons c t =>
    simp only [plainOk, Bool.and_eq_true] at h
    refine ⟨by simp, h.1.2, ?_⟩
    intro x hx
    simp only [List.head?_cons, Option.some.injEq] at hx
    subst hx
    exact h.1.1

theorem plain_no_colon {k : List Char} (h : plainOk k = true) :
    k.all (fun c => !(c == ':')) = true := by
  refine all_mono _ ?_ (plainOk_cases h).2.1
  intro x hx
  simp only [plainCharOk, Bool.or_eq_true, Bool.not_eq_true', Bool.or_eq_false_iff] at hx
  simp [hx.1.1.1.1.1]

theorem plain_no_nl {k : List Char} (h : plainOk k = true) :
    k.all (fun c => !(c == '\n')) = true := by
  refine all_mono _ ?_ (plainOk_cases h).2.1
  intro x hx
  simp only [plainCharOk, Bool.or_eq_true, Bool.not_eq_true', Bool.or_eq_false_iff] at hx
  simp [hx.1.1.2]

theorem plain_scalarWF {v : List Char} (h : plainOk v = true) : scalarWF v = true := by
  refine all_mono _ ?_ (plainOk_cases h).2.1
  intro x hx
  simp only [plainCharOk, Bool.or_eq_true, Bool.not_eq_true', Bool.or_eq_false_iff] at hx
  simp [hx.1.1.1.2, hx.1.1.2]

theorem scalar_no_nl {s : List Char} (h : scalarWF s = true) :
    s.all (fun c => !(c == '\n')) = true := by
  refine all_mono _ ?_ h
  intro x hx
  simp only [Bool.or_eq_true, Bool.not_eq_true', Bool.or_eq_false_iff] at hx
  simp [hx.2]

theorem emit_no_nl {s : List Char} (h : scalarWF s = true) :
    (emitScalar s).all (fun c => !(c == '\n')) = true := by
  unfold emitScalar
  split
  · next hp => exact plain_no_nl hp
  · simp only [List.all_cons, List.all_append, Bool.and_eq_true]
    exact ⟨by decide, scalar_no_nl h, by decide⟩

theorem splitColon_append {k : List Char} (r : List Char)
    (hk : k.all (fun c => !(c == ':')) = true) :
    splitColon (k ++ ':' :: r) = some (k, r) := by
  induction k with
  | nil =>
    simp only [List.nil_append]
    conv_lhs => unfold splitColon
    rw [if_pos (by decide)]
  | cons c t ih =>
    simp only [List.all_cons, Bool.and_eq_true] at hk
    simp only [List.cons_append]
    conv_lhs => unfold splitColon
    rw [if_neg (by simpa using hk.1), ih hk.2]

theorem parseScalar_emit {s : List Char} (h : scalarWF s = true) :
    parseScalar (emitScalar s) = some s := by
  unfold emitScalar
  by_cases hp : plainOk s = true
  · rw [if_pos hp]
    cases s with
    | nil => simp [plainOk] at hp
    | cons c t =>
      have hall := (plainOk_cases hp).2.1
      simp only [List.all_cons, Bool.and_eq_true] at hall
      have hc : (c == squote) = false := by
        have := hall.1
        simp only [plainCharOk, Bool.or_eq_true, Bool.not_eq_true',
          Bool.or_eq_false_iff] at this
        simpa using this.1.1.1.2
      conv_lhs => unfold parseScalar
      dsimp only
      rw [if_neg (by simp [hc]), if_pos hp]
  · rw [if_neg hp]
    conv_lhs => unfold parseScalar
    dsimp only
    rw [if_pos (by decide : (squote == squote) = true), if_pos ?hcond]
    case hcond =>
      rw [List.getLast?_concat, List.dropLast_concat]
      simpa [scalarWF] using h
    rw [List.dropLast_concat]

theorem parseScalar_WF {s v : List Char} (h : parseScalar s = some v) :
    scalarWF v = true := by
  unfold parseScalar at h
  split at h
  · cases h
  · split at h
    · split at h
      · next hcond =>
        injection h with h'
        subst h'
        rw [Bool.and_eq_true] at hcond
        simpa [scalarWF] using hcond.2
      · cases h
    · split at h
      · next hp =>
        injection h with h'
        subst h'
        exact plain_scalarWF hp
      · cases h

theorem takeWhile_append_all {α : Type} (p : α → Bool) (a b : List α)
    (ha : ∀ x ∈ a, p x = true)
    (hb : ∀ x, b.head? = some x → p x = false) :
    (a ++ b).takeWhile p = a ∧ (a ++ b).dropWhile p = b := by
  induction a with
  | nil =>
    simp only [List.nil_append]
    cases b with
    | nil => simp
    | cons x t =>
      have hx := hb x rfl
      constructor
      · rw [List.takeWhile_cons, if_neg (by simp [hx])]
      · rw [List.dropWhile_cons, if_neg (by simp [hx])]
  | cons c t ih =>
    have hc := ha c (by simp)
    have iht := ih (fun x hx => ha x (by simp [hx]))
    simp only [List.cons_append]
    constructor
    · rw [List.takeWhile_cons, if_pos (by simp [hc]), iht.1]
    · rw [List.dropWhile_cons, if_pos (by simp [hc]), iht.2]

theorem isItemLine_item (e : List Char) : isItemLine ('-' :: ' ' :: e) = true := by
  simp [isItemLine, leadEq]

theorem mapM_items (items : List (List Char)) (h : items.all scalarWF = true) :
    (items.map (fun s => '-' :: ' ' :: emitScalar s)).mapM
      (fun ln => parseScalar (ln.drop 2)) = some items := by
  induction items with
  | nil => rfl
  | cons s t ih =>
    simp only [List.all_cons, Bool.and_eq_true] at h
    simp only [List.map_cons, List.mapM_cons]
    rw [show ('-' :: ' ' :: emitScalar s).drop 2 = emitScalar s from rfl]
    rw [parseScalar_emit h.1, ih h.2]
    rfl

theorem findClose_append_none {a b : List (List Char)}
    (ha : findClose a = none) (hb : findClose b = none) :
    findClose (a ++ b) = none := by
  induction a with
  | nil => simpa using hb
  | cons l t ih =>
    rw [List.cons_append]
    by_cases hc : trimChars l = dashes
    · exfalso
      unfold findClose at ha
      rw [if_pos hc] at ha
      cases ha
    · have hft : findClose t = none := by
        unfold findClose at ha
        rw [if_neg hc] at ha
        cases heq : findClose t with
        | none => rfl
        | some v =>
          obtain ⟨ys, cl, r⟩ := v
          rw [heq] at ha
          cases ha
      unfold findClose
      rw [if_neg hc, ih hft]

/-! ### Facts about the emitted lines -/

theorem dumpLines_ne_dashes {m : YamlMap} :
    ∀ l ∈ dumpLines m, trimChars l ≠ dashes := by
  induction m with
  | nil =>
    intro l hl
    cases hl
  | cons e t ih =>
    obtain ⟨k, v⟩ := e
    intro l hl
    simp only [dumpLines] at hl
    rcases List.mem_append.mp hl with hd | htl
    · cases v with
      | scalar s =>
        simp only [dumpValue, List.mem_singleton] at hd
        subst hd
        exact trim_colon_ne_dashes k _
      | seq items =>
        simp only [dumpValue, List.mem_cons] at hd
        rcases hd with rfl | hitem
        · exact trim_colon_ne_dashes k []
        · rcases List.mem_map.mp hitem with ⟨s, _, rfl⟩
          exact trim_item_ne_dashes _
    · exact ih l htl

theorem dumpLines_no_nl {m : YamlMap} (h : mapWF m = true) :
    ∀ l ∈ dumpLines m, l.all (fun c => !(c == '\n')) = true := by
  induction m with
  | nil =>
    intro l hl
    cases hl
  | cons e t ih =>
    obtain ⟨k, v⟩ := e
    simp only [mapWF, List.all_cons, Bool.and_eq_true] at h
    obtain ⟨⟨hk, hv⟩, ht⟩ := h
    intro l hl
    simp only [dumpLines] at hl
    rcases List.mem_append.mp hl with hd | htl
    · cases v with
      | scalar s =>
        simp only [dumpValue, List.mem_singleton] at hd
        subst hd
        simp only [List.all_append, List.all_cons, Bool.and_eq_true]
        exact ⟨plain_no_nl hk, by decide, by decide,
          emit_no_nl (by simpa [valueWF] using hv)⟩
      | seq items =>
        simp only [valueWF, Bool.and_eq_true] at hv
        simp only [dumpValue, List.mem_cons] at hd
        rcases hd with rfl | hitem
        · simp only [List.all_append, List.all_cons, List.all_nil, Bool.and_eq_true]
          exact ⟨plain_no_nl hk, by decide, trivial⟩
        · rcases List.mem_map.mp hitem with ⟨s, hs, rfl⟩
          simp only [List.all_cons, Bool.and_eq_true]
          have hsWF : scalarWF s = true := by
            have := hv.2
            simp only [List.all_eq_true] at this
            exact this s hs
          exact ⟨by decide, by decide, emit_no_nl hsWF⟩
    · exact ih ht l htl

theorem head_not_item_of_plain {k tail : List Char} (hk : plainOk k = true) :
    isItemLine (k ++ tail) = false := by
  cases k with
  | nil => simp [plainOk] at hk
  | cons c k2 =>
    have hcc : headCharOk c = true := (plainOk_cases hk).2.2 c rfl
    have hnd : (c == '-') = false := by
      cases hcd : c == '-' with
      | false => rfl
      | true =>
        unfold headCharOk at hcc
        rw [hcd] at hcc
        simp at hcc
    have hdc : ('-' == c) = false := by
      refine beq_eq_false_iff_ne.mpr ?_
      exact fun he => absurd (beq_eq_false_iff_ne.mp hnd) (fun hne => hne he.symm)
    simp [isItemLine, leadEq, hdc]

theorem dumpLines_head_not_item {m : YamlMap} (h : mapWF m = true) :
    ∀ x, (dumpLines m).head? = some x → isItemLine x = false := by
  cases m with
  | nil =>
    intro x hx
    cases hx
  | cons e t =>
    obtain ⟨k, v⟩ := e
    simp only [mapWF, List.all_cons, Bool.and_eq_true] at h
    have hk : plainOk k = true := h.1.1
    intro x hx
    cases v with
    | scalar s =>
      simp only [dumpLines, dumpValue, List.cons_append, List.head?_cons,
        Option.some.injEq] at hx
      subst hx
      exact head_not_item_of_plain hk
    | seq items =>
      simp only [dumpLines, dumpValue, List.cons_append, List.head?_cons,
        Option.some.injEq] at hx
      subst hx
      exact head_not_item_of_plain hk

/-! ### safe_load of safe_dump output is the identity -/

theorem loadLines_dump {m : YamlMap} (h : mapWF m = true) :
    loadLines (dumpLines m) = some m := by
  induction m with
  | nil => simp [dumpLines, loadLines]
  | cons e t ih =>
    obtain ⟨k, v⟩ := e
    simp only [mapWF, List.all_cons, Bool.and_eq_true] at h
    obtain ⟨⟨hk, hv⟩, ht⟩ := h
    have iht := ih ht
    cases v with
    | scalar s =>
      have hsWF : scalarWF s = true := by simpa [valueWF] using hv
      show loadLines ((k ++ ':' :: ' ' :: emitScalar s) :: dumpLines t) = _
      conv_lhs => unfold loadLines
      rw [splitColon_append _ (plain_no_colon hk)]
      dsimp only
      rw [if_pos hk]
      rw [if_pos (by decide : ((' ' : Char) == ' ') = true)]
      rw [parseScalar_emit hsWF]
      dsimp only
      rw [iht]
    | seq items =>
      simp only [valueWF, Bool.and_eq_true] at hv
      obtain ⟨hne, hall⟩ := hv
      cases items with
      | nil => simp at hne
      | cons s0 srest =>
        show loadLines ((k ++ [':']) ::
          ((s0 :: srest).map (fun s => '-' :: ' ' :: emitScalar s) ++ dumpLines t)) = _
        conv_lhs => unfold loadLines
        rw [show (k ++ [':'] : List Char) = k ++ ':' :: [] from rfl]
        rw [splitColon_append _ (plain_no_colon hk)]
        dsimp only
        rw [if_pos hk]
        have hsplit := takeWhile_append_all isItemLine
          ((s0 :: srest).map (fun s => '-' :: ' ' :: emitScalar s)) (dumpLines t)
          (by
            intro x hx
            rcases List.mem_map.mp hx with ⟨s, _, rfl⟩
            exact isItemLine_item _)
          (dumpLines_head_not_item ht)
        rw [hsplit.1, hsplit.2]
        rw [mapM_items _ hall]
        dsimp only [List.map_cons]
        rw [iht]

/-! ### Everything safe_load accepts is well-formed -/

theorem mapM_parseScalar_WF {ls vs : List (List Char)}
    (h : ls.mapM (fun ln => parseScalar (ln.drop 2)) = some vs) :
    vs.all scalarWF = true := by
  induction ls generalizing vs with
  | nil =>
    simp only [List.mapM_nil, pure, Option.some.injEq] at h
    subst h
    rfl
  | cons a t ih =>
    rw [List.mapM_cons] at h
    cases hpa : parseScalar (a.drop 2) with
    | none =>
      rw [hpa] at h
      simp at h
    | some x =>
      rw [hpa] at h
      cases hmt : t.mapM (fun ln => parseScalar (ln.drop 2)) with
      | none =>
        rw [hmt] at h
        simp at h
      | some xs =>
        rw [hmt] at h
        simp only [Option.bind_eq_bind, Option.some_bind, pure,
          Option.some.injEq] at h
        subst h
        simp only [List.all_cons, Bool.and_eq_true]
        exact ⟨parseScalar_WF hpa, ih hmt⟩

theorem loadLines_WF {ls : List (List Char)} {m : YamlMap}
    (h : loadLines ls = some m) : mapWF m = true := by
  suffices H : ∀ n ls m, (ls : List (List Char)).length ≤ n →
      loadLines ls = some m → mapWF m = true from H ls.length ls m le_rfl h
  intro n
  induction n with
  | zero =>
    intro ls m hlen hload
    cases ls with
    | nil =>
      unfold loadLines at hload
      injection hload with h2
      subst h2
      rfl
    | cons l rest => simp at hlen
  | succ n ihn =>
    intro ls m hlen hload
    cases ls with
    | nil =>
      unfold loadLines at hload
      injection hload with h2
      subst h2
      rfl
    | cons l rest =>
      simp only [List.length_cons] at hlen
      unfold loadLines at hload
      split at hload
      · cases hload
      · next k after heq =>
        split at hload
        · split at hload
          · split at hload
            · next v vs hmapm =>
              split at hload
              · next mtail hrec =>
                injection hload with h2
                subst h2
                simp only [mapWF, List.all_cons, Bool.and_eq_true]
                refine ⟨⟨by assumption, ?_⟩, ?_⟩
                · simp only [valueWF, Bool.and_eq_true]
                  exact ⟨by simp, mapM_parseScalar_WF hmapm⟩
                · have hlen2 : (rest.dropWhile isItemLine).length ≤ n :=
                    le_trans (length_dropWhile_le _ _) (by omega)
                  exact ihn _ _ hlen2 hrec
              · cases hload
            · cases hload
            · cases hload
          · split at hload
            · split at hload
              · cases hload
              · next sv hps =>
                split at hload
                · cases hload
                · next mtail hrec =>
                  injection hload with h2
                  subst h2
                  simp only [mapWF, List.all_cons, Bool.and_eq_true]
                  refine ⟨⟨by assumption, ?_⟩, ?_⟩
                  · simpa [valueWF] using parseScalar_WF hps
                  · exact ihn _ _ (by omega) hrec
            · cases hload
        · cases hload

/-! ### Extraction of a saved file -/

theorem extract_frame (m : YamlMap) (R : List (List Char)) (X : List Char)
    (h : mapWF m = true) :
    extract_from_lines (dashes :: (dumpLines m ++ dashes :: R)) X =
      some (m, joinNl R) := by
  unfold extract_from_lines
  dsimp only
  rw [if_pos trimChars_dashes]
  rw [findClose_append R (fun l hl => dumpLines_ne_dashes l hl)]
  dsimp only
  rw [loadLines_dump h]

theorem extract_wf {content : List Char} {m : YamlMap} {rem : List Char}
    (h : extract_yaml_metadata content = some (m, rem)) : mapWF m = true := by
  unfold extract_yaml_metadata extract_from_lines at h
  split at h
  · simp only [Option.some.injEq, Prod.mk.injEq] at h
    rw [← h.1]
    rfl
  · split at h
    · split at h
      · split at h
        · next hld =>
          simp only [Option.some.injEq, Prod.mk.injEq] at h
          rw [← h.1]
          exact loadLines_WF hld
        · cases h
      · split at h
        · next hld =>
          simp only [Option.some.injEq, Prod.mk.injEq] at h
          rw [← h.1]
          exact loadLines_WF hld
        · cases h
    · simp only [Option.some.injEq, Prod.mk.injEq] at h
      rw [← h.1]
      rfl

theorem extract_save (m : YamlMap) (rem : List Char) (h : mapWF m = true) :
    (extract_yaml_metadata (save_updated_content m rem)).map Prod.fst = some m := by
  have hsplit : splitOnChar '\n' (save_updated_content m rem) =
      dashes :: (dumpLines m ++ dashes :: splitOnChar '\n' rem) := by
    unfold save_updated_content
    rw [splitOnChar_line dashes _ (by decide)]
    congr 1
    rw [linesText_split (dumpLines m) _ (dumpLines_no_nl h)]
    congr 1
  have hne : save_updated_content m rem ≠ [] := by
    unfold save_updated_content
    simp [dashes]
  have hsl : splitlines (save_updated_content m rem) =
      (if (dashes :: (dumpLines m ++ dashes :: splitOnChar '\n' rem)).getLast? =
          some ([] : List Char)
       then (dashes :: (dumpLines m ++ dashes :: splitOnChar '\n' rem)).dropLast
       else dashes :: (dumpLines m ++ dashes :: splitOnChar '\n' rem)) := by
    unfold splitlines
    rw [if_neg hne, hsplit]
  unfold extract_yaml_metadata
  rw [hsl]
  by_cases hlast : (dashes :: (dumpLines m ++ dashes :: splitOnChar '\n' rem)).getLast? =
      some ([] : List Char)
  · rw [if_pos hlast]
    have hnn := splitOnChar_ne_nil '\n' rem
    have hd : (dashes :: (dumpLines m ++ dashes :: splitOnChar '\n' rem)).dropLast =
        dashes :: (dumpLines m ++ dashes :: (splitOnChar '\n' rem).dropLast) := by
      rw [show dashes :: (dumpLines m ++ dashes :: splitOnChar '\n' rem) =
          ((dashes :: dumpLines m) ++ [dashes]) ++ splitOnChar '\n' rem by simp]
      rw [List.dropLast_append_of_ne_nil _ hnn]
      simp
    rw [hd, extract_frame m _ _ h]
    rfl
  · rw [if_neg hlast, extract_frame m _ _ h]
    rfl

/-- C4: for a file whose front matter extracts to a mapping,
re-serializing that unmodified mapping the way `save_updated_file` does and
extracting again yields the same key-to-value mapping (YAML modelled on the
string / list-of-strings fragment these scripts store). -/
theorem C4_yaml_roundtrip (content : List Char) (m : YamlMap) (rem : List Char)
    (h : extract_yaml_metadata content = some (m, rem)) :
    (extract_yaml_metadata (save_updated_content m rem)).map Prod.fst = some m :=
  extract_save m rem (extract_wf h)

/-- Witness for C4_yaml_roundtrip on a two-key front matter. -/
theorem C4_witness :
    (extract_yaml_metadata (save_updated_content
        [("Date".data, YamlValue.scalar "x".data),
         ("Weeks".data, YamlValue.seq ["w1".data])] "body".data)).map Prod.fst =
      some [("Date".data, YamlValue.scalar "x".data),
            ("Weeks".data, YamlValue.seq ["w1".data])] := by
  have h : extract_yaml_metadata "---\nDate: x\nWeeks:\n- w1\n---\nbody".data =
      some ([("Date".data, YamlValue.scalar "x".data),
             ("Weeks".data, YamlValue.seq ["w1".data])], "body".data) := by
    unfold extract_yaml_metadata
    rw [show splitlines "---\nDate: x\nWeeks:\n- w1\n---\nbody".data =
        dashes :: (dumpLines [("Date".data, YamlValue.scalar "x".data),
          ("Weeks".data, YamlValue.seq ["w1".data])] ++ dashes :: ["body".data])
      from by decide]
    rw [extract_frame _ ["body".data] _ (by decide)]
    rfl
  exact C4_yaml_roundtrip _ _ _ h

/-! ## C10: unterminated front matter -/

/-- C10: when the first line is `---` and no later line strips to `---`,
`extract_yaml_metadata` treats the entire remainder as YAML and, when it
parses, returns the empty string as the remaining content (the body is
dropped from any re-saved file), whereas `parse_yaml_frontmatter` in
add_daily_review_section.py returns `("", content)` with the content
unchanged. -/
theorem C10_unterminated (content : List Char) (rest : List (List Char))
    (m : YamlMap)
    (hsp : splitlines content = dashes :: rest)
    (hnc : findClose rest = none)
    (hld : loadLines rest = some m) :
    extract_yaml_metadata content = some (m, []) ∧
    parse_yaml_frontmatter content = ([], content) := by
  constructor
  · unfold extract_yaml_metadata
    rw [hsp]
    unfold extract_from_lines
    dsimp only
    rw [if_pos trimChars_dashes, hnc]
    dsimp only
    rw [hld]
  · have hcne : content ≠ [] := by
      intro hc
      rw [hc] at hsp
      simp [splitlines] at hsp
    unfold splitlines at hsp
    rw [if_neg hcne] at hsp
    by_cases hlast : (splitOnChar '\n' content).getLast? = some ([] : List Char)
    · rw [if_pos hlast] at hsp
      have hfull : splitOnChar '\n' content = dashes :: (rest ++ [[]]) := by
        have hrec := List.dropLast_append_getLast? _ hlast
        rw [hsp] at hrec
        rw [← hrec]
        simp
      have hnc2 : findClose (rest ++ [[]]) = none :=
        findClose_append_none hnc (by decide)
      unfold parse_yaml_frontmatter
      by_cases hle : leadEq ('-' :: '-' :: '-' :: '\n' :: []) content = true
      · rw [if_pos hle, hfull]
        dsimp only
        rw [hnc2]
      · rw [if_neg hle]
    · rw [if_neg hlast] at hsp
      unfold parse_yaml_frontmatter
      by_cases hle : leadEq ('-' :: '-' :: '-' :: '\n' :: []) content = true
      · rw [if_pos hle, hsp]
        dsimp only
        rw [hnc]
      · rw [if_neg hle]
/-- Witness for C10_unterminated: a note whose front matter never closes
and whose remainder happens to parse as YAML. -/
theorem C10_witness :
    extract_yaml_metadata "---\nTitle: hello\nDate: now".data =
      some ([("Title".data, YamlValue.scalar "hello".data),
             ("Date".data, YamlValue.scalar "now".data)], []) ∧
    parse_yaml_frontmatter "---\nTitle: hello\nDate: now".data =
      ([], "---\nTitle: hello\nDate: now".data) := by
  have hld : loadLines ["Title: hello".data, "Date: now".data] =
      some [("Title".data, YamlValue.scalar "hello".data),
            ("Date".data, YamlValue.scalar "now".data)] := by
    rw [show ["Title: hello".data, "Date: now".data] =
        dumpLines [("Title".data, YamlValue.scalar "hello".data),
          ("Date".data, YamlValue.scalar "now".data)] from by decide]
    exact loadLines_dump (by decide)
  exact C10_unterminated "---\nTitle: hello\nDate: now".data
    ["Title: hello".data, "Date: now".data] _ (by decide) (by decide) hld

/-! ## Dropbox listing/pagination model (C5, C7) -/

/-- A Dropbox folder entry (`FolderMetadata`/`FileMetadata` with its name
and `path_lower`). -/
structure DbxEntry where
  isFolder : Bool
  name : String
  pathLower : String
deriving DecidableEq, Repr

/-- A folder listing as the sequence of pages the API returns:
`files_list_folder` gives the head page, and each
`files_list_folder_continue` (taken while `has_more`) the next one. -/
abbrev DbxPages := List (List DbxEntry)

/-- update_daily_properties.py `list_all_entries`: accumulate the first
page, then keep calling `files_list_folder_continue` while `has_more`. -/
def list_all_entries : DbxPages → List DbxEntry
  | [] => []
  | p :: rest => p ++ list_all_entries rest

/-- Python `str.lower()` (ASCII as used by the vault names). -/
def lowerStr (s : String) : String := String.mk (s.data.map Char.toLower)

/-- update_daily_properties.py `find_folder_in_path`: case-insensitive
containment scan over all pages; `none` models the `return None` path. -/
def find_folder_in_path (pages : DbxPages) (term : String) : Option String :=
  ((list_all_entries pages).find? fun e =>
      e.isFolder && hasSub (lowerStr term).data (lowerStr e.name).data).map
    (fun e => e.pathLower)

/-- Python `str.endswith`. -/
def strEndsWith (s suf : String) : Bool := leadEq suf.data.reverse s.data.reverse

/-- create_daily_journal.py `find_daily_folder`: scans only
`response.entries`, the first page; `none` models the raised
`FileNotFoundError`. -/
def find_daily_folder (pages : DbxPages) : Option String :=
  ((pages.headD []).find? fun e => e.isFolder && strEndsWith e.name "_Daily").map
    (fun e => e.pathLower)

/-- create_new_cycle_page.py `find_cycles_folder`: scans only the first
page for a name ending in `_Cycles`; `none` models `FileNotFoundError`. -/
def find_cycles_folder (pages : DbxPages) : Option String :=
  ((pages.headD []).find? fun e => e.isFolder && strEndsWith e.name "_Cycles").map
    (fun e => e.pathLower)

/-- C5, counterexample: a vault whose `_Daily` folder arrives on the second
page. `find_daily_folder` (create_daily_journal.py) reports it absent —
raising FileNotFoundError — even though a scan of all entries finds it, so
not every resolver paginates before concluding absence. -/
theorem C5_counterexample :
    find_daily_folder
        [[⟨false, "note.md", "/note.md"⟩], [⟨true, "01_Daily", "/01_daily"⟩]] = none ∧
    (list_all_entries
        [[⟨false, "note.md", "/note.md"⟩], [⟨true, "01_Daily", "/01_daily"⟩]]).find?
        (fun e => e.isFolder && strEndsWith e.name "_Daily") =
      some ⟨true, "01_Daily", "/01_daily"⟩ :=
  ⟨by decide, by decide⟩

/-- C5, amended: `list_all_entries` follows continuation pages until the
listing is exhausted, so update_daily_properties.py's resolvers examine
every entry of every page and report absence only when no entry matches;
the file-creation helpers (`find_daily_folder`, `find_cycles_folder`)
examine only the first page `files_list_folder` returns. -/
theorem C5_pagination (pages : DbxPages) (term : String) :
    list_all_entries pages = pages.flatten ∧
    (find_folder_in_path pages term = none ↔
      ∀ e ∈ pages.flatten, ¬(e.isFolder = true ∧
        hasSub (lowerStr term).data (lowerStr e.name).data = true)) ∧
    find_daily_folder pages = find_daily_folder [pages.headD []] ∧
    find_cycles_folder pages = find_cycles_folder [pages.headD []] := by
  have hjoin : list_all_entries pages = pages.flatten := by
    induction pages with
    | nil => rfl
    | cons p rest ih => simp [list_all_entries, ih]
  refine ⟨hjoin, ?_, rfl, rfl⟩
  unfold find_folder_in_path
  rw [hjoin]
  rw [Option.map_eq_none']
  rw [List.find?_eq_none]
  constructor
  · intro hnone e he hconj
    have := hnone e he
    simp [hconj.1, hconj.2] at this
  · intro hall e he
    have := hall e he
    simp only [Bool.and_eq_true, not_and] at this ⊢
    exact this

/-- Witness for C5_pagination on the two-page vault. -/
theorem C5_witness :
    list_all_entries
        [[⟨false, "note.md", "/note.md"⟩], [⟨true, "01_Daily", "/01_daily"⟩]] =
      ([[⟨false, "note.md", "/note.md"⟩],
        [⟨true, "01_Daily", "/01_daily"⟩]] : DbxPages).flatten :=
  (C5_pagination _ "_Daily").1

/-! ## Exit-code and error-class models (C6, C7) -/

/-- What the folder-resolution phase of a script run does. -/
inductive ResolverOutcome where
  | ok
  | raisesFNF
  | raisesOther
deriving DecidableEq, Repr

/-- How the interpreter process ends: `exit n` via `sys.exit` or normal
completion, or `uncaught` when an exception propagates out of `main`
(CPython prints a traceback; the failure is not routed through
`sys.exit(1)` or any handler). -/
inductive RunResult where
  | exit (code : Nat)
  | uncaught
deriving DecidableEq, Repr

/-- create_newsletter_page.py `main` (lines 58–78): missing vault env var →
print + `sys.exit(1)`; the try block catches only `FileNotFoundError`
(print + `sys.exit(1)`); any other exception propagates uncaught; on
success the script completes with exit code 0. -/
def create_newsletter_main (vaultSet : Bool) (resolver : ResolverOutcome) :
    RunResult :=
  if !vaultSet then .exit 1
  else
    match resolver with
    | .ok => .exit 0
    | .raisesFNF => .exit 1
    | .raisesOther => .uncaught

/-- create_daily_journal.py `main` (lines 112–129): missing vault env var →
print + plain `return` (process exits 0); `except FileNotFoundError` and
`except Exception` both print and return, so every caught exception still
ends the process with exit code 0. -/
def create_daily_journal_main (vaultSet : Bool) (resolver : ResolverOutcome) :
    RunResult :=
  if !vaultSet then .exit 0
  else
    match resolver with
    | .ok => .exit 0
    | .raisesFNF => .exit 0
    | .raisesOther => .exit 0

/-- create_cycle_and_cooling_period_pages.py `main` (lines 387–433):
missing vault env var → `sys.exit(1)`; `except FileNotFoundError`,
`except AuthError` and `except Exception` all print and `sys.exit(1)`. -/
def cycle_pages_main (vaultSet : Bool) (resolver : ResolverOutcome) : RunResult :=
  if !vaultSet then .exit 1
  else
    match resolver with
    | .ok => .exit 0
    | .raisesFNF => .exit 1
    | .raisesOther => .exit 1

/-- C6, counterexample: create_daily_journal.py catches a top-level
FileNotFoundError (and any other exception) but returns normally, so the
process exits 0, not 1 via `sys.exit(1)`. -/
theorem C6_counterexample :
    create_daily_journal_main true .raisesFNF = .exit 0 ∧
    create_daily_journal_main true .raisesOther = .exit 0 ∧
    (RunResult.exit 0) ≠ (RunResult.exit 1) :=
  ⟨by decide, by decide, by decide⟩

/-- C6, amended: create_newsletter_page.py and
create_cycle_and_cooling_period_pages.py exit 0 on success and 1 via
`sys.exit(1)` on every caught top-level exception (newsletter catches only
FileNotFoundError; other exceptions propagate uncaught); but
create_daily_journal.py's `main` catches FileNotFoundError and generic
exceptions and returns normally, exiting 0. -/
theorem C6_exit_codes :
    create_newsletter_main true .ok = .exit 0 ∧
    create_newsletter_main false .ok = .exit 1 ∧
    create_newsletter_main true .raisesFNF = .exit 1 ∧
    create_newsletter_main true .raisesOther = .uncaught ∧
    cycle_pages_main true .ok = .exit 0 ∧
    cycle_pages_main false .ok = .exit 1 ∧
    cycle_pages_main true .raisesFNF = .exit 1 ∧
    cycle_pages_main true .raisesOther = .exit 1 ∧
    (∀ r, create_daily_journal_main true r = .exit 0) ∧
    (∀ v, create_daily_journal_main v .raisesFNF = .exit 0) := by
  refine ⟨rfl, rfl, rfl, rfl, rfl, rfl, rfl, rfl, ?_, ?_⟩
  · intro r
    cases r <;> rfl
  · intro v
    cases v <;> rfl

/-! ## C7: the three failure classes of create_new_cycle_page.py -/

/-- Import phase of create_new_cycle_page.py (lines 12–16): a missing
PROJECT_ROOT_PATH raises EnvironmentError before any Dropbox API call. -/
inductive ImportResult where
  | started
  | environmentError
deriving DecidableEq, Repr

def import_phase (projectRootSet : Bool) : ImportResult :=
  if projectRootSet then .started else .environmentError

/-- A full run of create_new_cycle_page.py: the import-time
EnvironmentError is uncaught; `main` exits 1 when the vault env var is
missing, catches only FileNotFoundError from the resolver (print +
`sys.exit(1)`); any other exception from the folder listing propagates
uncaught — there is no generic handler in this script's main. -/
def create_new_cycle_run (projectRootSet vaultSet : Bool)
    (resolver : ResolverOutcome) : RunResult :=
  match import_phase projectRootSet with
  | .environmentError => .uncaught
  | .started =>
    if !vaultSet then .exit 1
    else
      match resolver with
      | .ok => .exit 0
      | .raisesFNF => .exit 1
      | .raisesOther => .uncaught

/-- C7, counterexample: with both env vars set, a generic (non-404) API
error during the folder listing of create_new_cycle_page.py is not caught
by any handler — the exception propagates out of `main` — so it is false
that every failure beyond the two named classes is caught by a generic
print handler. -/
theorem C7_counterexample :
    create_new_cycle_run true true .raisesOther = .uncaught ∧
    (RunResult.uncaught : RunResult) ≠ .exit 1 :=
  ⟨by decide, by decide⟩

/-- C7, amended: a missing PROJECT_ROOT_PATH raises EnvironmentError during
the import phase, before any API call; `find_cycles_folder` raises
FileNotFoundError exactly when no folder on the page it scans ends in
`_Cycles`, and `main` catches that and exits 1; but any other failure in
the folder resolution propagates uncaught instead of being caught by a
generic handler. -/
theorem C7_failure_classes (pages : DbxPages) (vaultSet : Bool) :
    import_phase false = .environmentError ∧
    import_phase true = .started ∧
    (∀ r, create_new_cycle_run false vaultSet r = .uncaught) ∧
    (find_cycles_folder pages = none ↔
      ∀ e ∈ pages.headD [], ¬(e.isFolder = true ∧
        strEndsWith e.name "_Cycles" = true)) ∧
    create_new_cycle_run true true .raisesFNF = .exit 1 ∧
    create_new_cycle_run true true .raisesOther = .uncaught := by
  refine ⟨rfl, rfl, fun r => rfl, ?_, rfl, rfl⟩
  unfold find_cycles_folder
  rw [Option.map_eq_none']
  rw [List.find?_eq_none]
  constructor
  · intro hnone e he hconj
    have := hnone e he
    simp [hconj.1, hconj.2] at this
  · intro hall e he
    have := hall e he
    simp only [Bool.and_eq_true, not_and] at this ⊢
    exact this

/-- Witness for C7_failure_classes on a one-page vault with a _Cycles
folder. -/
theorem C7_witness :
    find_cycles_folder [[⟨true, "02_Cycles", "/02_cycles"⟩]] = none ↔
      ∀ e ∈ ([[⟨true, "02_Cycles", "/02_cycles"⟩]] : DbxPages).headD [],
        ¬(e.isFolder = true ∧ strEndsWith e.name "_Cycles" = true) :=
  (C7_failure_classes [[⟨true, "02_Cycles", "/02_cycles"⟩]] true).2.2.2.1

end SecondBrain
